import Mathlib

/-!
Verification development for the beacon-kit repository.

We shallowly embed the Go sources:
  * `crypto/sha256/merkleize.go` (SSZ merkleization helpers),
  * `mod/async/pkg/server/event.go` (the event server),
  * the blob `Processor` (`VerifySidecars` / `ProcessSidecars`),
  * the `FinalizeBlockMiddleware` (`PreBlock` / `EndBlock`),
and prove the specification claims about them.

The SHA-256 compression function is modelled as a free binary constructor
(`Root.hash2`): two roots hash to the formal node built from them.  Every
equation provable in this free algebra holds for any concrete hash function,
and every disequality holds for any collision-free hash function, which is
the standing assumption for SHA-256 based merkleization.
-/

deriving instance DecidableEq for Except

namespace BeaconKit

namespace sha256

/-- A 32-byte hash-tree root (`tree.Root` in Go).  `bytes v` is a literal
32-byte word (a number below 2^256, e.g. an input chunk or a serialized
`uint64` length); `hash2 a b` is the SHA-256 hash of the concatenation of two
roots, kept free. -/
inductive Root where
| bytes (v : Nat)
| hash2 (a b : Root)
deriving DecidableEq

/-- The failure modes of the merkleization routines.  `limitExceeded` is the
`errors.New("merkleizing list exceeds the maximum allowed number of
elements")` return; `oddLength` is the error of the per-level pair hasher on
an odd-length input; `indexOutOfRange` models the Go runtime panic raised by
the final `roots[0]` access on an empty slice; `elementHash` models a failure
of an element's own `HashTreeRoot` method. -/
inductive MerkleErr where
| limitExceeded
| oddLength
| indexOutOfRange
| elementHash
deriving DecidableEq

/-- `tree.GetHashFn()` applied to the 64-byte concatenation of two roots,
modelled freely. -/
def gHash (a b : Root) : Root := Root.hash2 a b

/-- Hash adjacent pairs of a level, halving it. -/
def hashPairs : List Root → List Root
| a :: b :: rest => gHash a b :: hashPairs rest
| _ => []

/-- Modelled from the spec: the sha256 package's per-level `HashTreeRoot`
helper (called by `SafeMerkleizeVector` but not among the provided sources)
hashes pairs of elements together to form the next level of the tree,
erroring on an odd number of child nodes. -/
def HashTreeRoot (roots : List Root) : Except MerkleErr (List Root) :=
if roots.length % 2 ≠ 0 then Except.error MerkleErr.oddLength
else Except.ok (hashPairs roots)

/-- Modelled from the spec: `tree.ZeroHashes` of the ztyp library —
`ZeroHashes[0]` is the all-zero root and `ZeroHashes[i+1] =
H(ZeroHashes[i], ZeroHashes[i])`. -/
def zeroHash : Nat → Root
| 0 => Root.bytes 0
| n + 1 => gHash (zeroHash n) (zeroHash n)

/-- Number of binary digits of `n` (`0 ↦ 0`), with an explicit structural
fuel so that the kernel can evaluate it. -/
def bitLenAux : Nat → Nat → Nat
| _, 0 => 0
| 0, _ + 1 => 0
| fuel + 1, n + 1 => bitLenAux fuel ((n + 1) / 2) + 1

/-- Number of binary digits of `n`. -/
def bitLength (n : Nat) : Nat := bitLenAux n n

/-- Modelled from the spec: ztyp's `tree.CoverDepth(L) = ceil(log2(L))`
(with `CoverDepth 0 = CoverDepth 1 = 0`), computed as the bit length of
`L - 1`. -/
def CoverDepth (limit : Nat) : Nat := bitLength (limit - 1)

/-- The loop of `SafeMerkleizeVector`: `n` is the number of remaining
iterations and `i` the current level (the Go loop runs `i` from `0` to
`depth - 1`, so it starts with `n = depth`, `i = 0`).  At each level an
odd-length list is padded with `zeroHash i`, an empty list short-circuits to
`zeroHash i`, and otherwise pairs are hashed; after the loop the first
element is returned (`roots[0]`, a runtime panic when the list is empty). -/
def merkleizeLoop : Nat → List Root → Nat → Except MerkleErr Root
| 0, [], _ => Except.error MerkleErr.indexOutOfRange
| 0, r :: _, _ => Except.ok r
| n + 1, roots, i =>
  if roots.length % 2 ≠ 0 then
    match HashTreeRoot (roots ++ [zeroHash i]) with
    | Except.error e => Except.error e
    | Except.ok roots' => merkleizeLoop n roots' (i + 1)
  else if roots.length = 0 then
    Except.ok (zeroHash i)
  else
    match HashTreeRoot roots with
    | Except.error e => Except.error e
    | Except.ok roots' => merkleizeLoop n roots' (i + 1)

/-- `SafeMerkleizeVector(roots, maxRootsAllowed)`: errors when the list
exceeds the limit, then folds the levels up to `CoverDepth maxRootsAllowed`. -/
def SafeMerkleizeVector (roots : List Root) (maxRootsAllowed : Nat) :
    Except MerkleErr Root :=
if roots.length > maxRootsAllowed then Except.error MerkleErr.limitExceeded
else merkleizeLoop (CoverDepth maxRootsAllowed) roots 0

/-- Modelled from the spec: ztyp's `Mixin(root, num)` hashes the root with
the 32-byte little-endian serialization of `num` (`mix_in_length`). -/
def Mixin (r : Root) (num : Nat) : Root := gHash r (Root.bytes num)

/-- `SafeMerkelizeVectorAndMixinLength(roots, maxRootsAllowed)`:
merkleize with the limit, then mix in `len(roots)`. -/
def SafeMerkelizeVectorAndMixinLength (roots : List Root)
    (maxRootsAllowed : Nat) : Except MerkleErr Root :=
match SafeMerkleizeVector roots maxRootsAllowed with
| Except.error e => Except.error e
| Except.ok byteRoots => Except.ok (Mixin byteRoots roots.length)

/-- `UnsafeMerkleizeVector` calls `SafeMerkleizeVector` and panics on error;
the panic is modelled by propagating the error value. -/
def UnsafeMerkleizeVector (roots : List Root) (maxRootsAllowed : Nat) :
    Except MerkleErr Root :=
SafeMerkleizeVector roots maxRootsAllowed

/-- `UnsafeMerkleizeVectorAndMixinLength(roots, maxRootsAllowed)`: note the
source passes `len(roots)` as the merkleization limit and mixes in
`maxRootsAllowed`. -/
def UnsafeMerkleizeVectorAndMixinLength (roots : List Root)
    (maxRootsAllowed : Nat) : Except MerkleErr Root :=
match UnsafeMerkleizeVector roots roots.length with
| Except.error e => Except.error e
| Except.ok byteRoots => Except.ok (Mixin byteRoots maxRootsAllowed)

/-- `HashElements`: hash each element with its own `HashTreeRoot` method
(`htr`), returning the first failure. -/
def HashElements (htr : α → Except MerkleErr Root) :
    List α → Except MerkleErr (List Root)
| [] => Except.ok []
| e :: rest =>
  match htr e with
  | Except.error err => Except.error err
  | Except.ok r =>
    match HashElements htr rest with
    | Except.error err => Except.error err
    | Except.ok rs => Except.ok (r :: rs)

/-- `BuildMerkleRoot(elements, limit)`: hash the elements, then
`SafeMerkleizeVector`. -/
def BuildMerkleRoot (htr : α → Except MerkleErr Root) (elements : List α)
    (limit : Nat) : Except MerkleErr Root :=
match HashElements htr elements with
| Except.error e => Except.error e
| Except.ok roots => SafeMerkleizeVector roots limit

/-- `BuildMerkleRootAndMixinLength(elements, limit)`: hash the elements,
then `SafeMerkelizeVectorAndMixinLength`. -/
def BuildMerkleRootAndMixinLength (htr : α → Except MerkleErr Root)
    (elements : List α) (limit : Nat) : Except MerkleErr Root :=
match HashElements htr elements with
| Except.error e => Except.error e
| Except.ok roots => SafeMerkelizeVectorAndMixinLength roots limit

end sha256

namespace server

/-- The errors of the event server.  `publisherNotFound` is
`errPublisherNotFound(id)`, `publisherAlreadyExists` is
`errPublisherAlreadyExists(id)`; `wrongEventType` and `other` model the
errors a publisher's own `Publish`/`Subscribe` may return. -/
inductive EvErr where
| publisherNotFound (id : Nat)
| publisherAlreadyExists (id : Nat)
| wrongEventType (id : Nat)
| other (code : Nat)
deriving DecidableEq

/-- A `types.BaseEvent`: only its `ID()` and an opaque payload matter here. -/
structure BaseEvent where
  id : Nat
  payload : Nat

/-- A `types.Publisher`: its `EventID()` and the (opaque) behaviour of its
`Publish` and `Subscribe` methods.  Channels are modelled as opaque numeric
handles. -/
structure Publisher where
  eventID : Nat
  publishFn : BaseEvent → Except EvErr Unit
  subscribeFn : Nat → Except EvErr Unit

/-- The `map[types.EventID]types.Publisher` registry as a lookup function. -/
def PubMap : Type := Nat → Option Publisher

/-- Go map insertion `m[k] = v`. -/
def PubMap.insert (m : PubMap) (k : Nat) (v : Publisher) : PubMap :=
fun k' => if k' = k then some v else m k'

/-- The `EventServer` struct; the logger field is omitted (it only carries an
I/O handle none of the modelled methods read). -/
structure EventServer where
  publishers : PubMap

/-- `NewEventServer()`: an empty registry. -/
def NewEventServer : EventServer := { publishers := fun _ => none }

/-- `EventServer.Publish(event)`: look up the publisher under `event.ID()`;
error if absent, else delegate. -/
def EventServer.Publish (es : EventServer) (event : BaseEvent) :
    Except EvErr Unit :=
match es.publishers event.id with
| none => Except.error (EvErr.publisherNotFound event.id)
| some publisher => publisher.publishFn event

/-- `EventServer.Subscribe(eventID, ch)`: look up the publisher under
`eventID`; error if absent, else delegate. -/
def EventServer.Subscribe (es : EventServer) (eventID : Nat) (ch : Nat) :
    Except EvErr Unit :=
match es.publishers eventID with
| none => Except.error (EvErr.publisherNotFound eventID)
| some publisher => publisher.subscribeFn ch

/-- The loop body of `RegisterPublishers`, threading the mutated map: for
each publisher in order, fail if its `EventID()` is already bound, else
insert it. -/
def registerLoop (m : PubMap) : List Publisher → PubMap × Except EvErr Unit
| [] => (m, Except.ok ())
| publisher :: rest =>
  if (m publisher.eventID).isSome then
    (m, Except.error (EvErr.publisherAlreadyExists publisher.eventID))
  else
    registerLoop (m.insert publisher.eventID publisher) rest

/-- `EventServer.RegisterPublishers(publishers...)`: returns the mutated
server together with the error value (the receiver keeps the insertions made
before a failure). -/
def EventServer.RegisterPublishers (es : EventServer)
    (publishers : List Publisher) : EventServer × Except EvErr Unit :=
match registerLoop es.publishers publishers with
| (m, r) => ({ publishers := m }, r)

/-- The clash condition of the registration claims: some publisher in the
batch has an event id already bound in the registry, or bound earlier in the
same batch. -/
def batchClash (m : PubMap) (ps : List Publisher) : Prop :=
∃ pre q post, ps = pre ++ q :: post ∧
  ((m q.eventID).isSome ∨ q.eventID ∈ pre.map Publisher.eventID)

/-- The publisher contract of spec §4.1: a publisher's own
`Publish`/`Subscribe` fail only with `WrongEventType`-style errors, never
with `PublisherNotFound` (that error belongs to the server lookup). -/
def PublisherContract (p : Publisher) : Prop :=
(∀ e i, p.publishFn e ≠ Except.error (EvErr.publisherNotFound i)) ∧
(∀ c i, p.subscribeFn c ≠ Except.error (EvErr.publisherNotFound i))

/-- A sample publisher whose delegated operations always succeed. -/
def okPub (id : Nat) : Publisher :=
{ eventID := id,
  publishFn := fun _ => Except.ok (),
  subscribeFn := fun _ => Except.ok () }

/-- A sample registry binding only event id 1 to `okPub 1`. -/
def samplePublishers : PubMap :=
fun id => if id = 1 then some (okPub 1) else none

/-- A sample event server over `samplePublishers`. -/
def sampleServer : EventServer := { publishers := samplePublishers }

end server

namespace blob

/-- Everything of a `BlobSidecar` the processor reads:
`GetBeaconBlockHeader().GetSlot()` and an opaque body. -/
structure BlobSidecar where
  headerSlot : Nat
  body : Nat
deriving DecidableEq

/-- A `BeaconBlockHeader` as used by `VerifySidecars`: its `GetSlot()` and an
opaque remainder. -/
structure BlockHeader where
  slot : Nat
  rest : Nat
deriving DecidableEq

/-- The `ConsensusSidecars` wrapper: `GetSidecars()` and `GetHeader()`. -/
structure ConsensusSidecars where
  sidecars : List BlobSidecar
  header : BlockHeader

/-- Processor-level errors (opaque). -/
inductive PErr where
| err (code : Nat)
deriving DecidableEq

/-- The collaborators of the blob `Processor`: `blockBodyOffsetFn` (with the
chain spec already applied), the external `verifier.verifySidecars` (KZG and
inclusion-proof checks, a black box per the spec), and the availability
store's `Persist`. -/
structure ProcessorEnv where
  blockBodyOffsetFn : Nat → Except PErr Nat
  verifySidecarsFn : List BlobSidecar → Nat → BlockHeader → Except PErr Unit
  persistFn : Nat → List BlobSidecar → Except PErr Unit

/-- A call to `verifier.verifySidecars(sidecars, kzgOffset, header)`. -/
structure VerifyCall where
  sidecars : List BlobSidecar
  kzgOffset : Nat
  header : BlockHeader

/-- A call to `avs.Persist(slot, sidecars)`. -/
structure PersistCall where
  slot : Nat
  sidecars : List BlobSidecar
deriving DecidableEq

/-- `Processor.VerifySidecars(cs)`: returns nil at once on an empty batch,
else computes the KZG offset for the header's slot and delegates to the
verifier.  The first component records the verifier calls issued. -/
def VerifySidecars (env : ProcessorEnv) (cs : ConsensusSidecars) :
    List VerifyCall × Except PErr Unit :=
if cs.sidecars.length = 0 then ([], Except.ok ())
else
  match env.blockBodyOffsetFn cs.header.slot with
  | Except.error e => ([], Except.error e)
  | Except.ok kzgOffset =>
    ([{ sidecars := cs.sidecars, kzgOffset := kzgOffset,
        header := cs.header }],
     env.verifySidecarsFn cs.sidecars kzgOffset cs.header)

/-- `Processor.ProcessSidecars(avs, sidecars)`: returns nil at once on an
empty batch, else persists the whole batch keyed by the slot of sidecar 0's
beacon block header.  The first component records the `Persist` calls
issued; the availability store is unchanged exactly when that list is
empty. -/
def ProcessSidecars (env : ProcessorEnv) (sidecars : List BlobSidecar) :
    List PersistCall × Except PErr Unit :=
if h : sidecars.length = 0 then ([], Except.ok ())
else
  match sidecars, h with
  | s :: rest, _ =>
    ([{ slot := s.headerSlot, sidecars := s :: rest }],
     env.persistFn s.headerSlot (s :: rest))

end blob

namespace middleware

/-- Middleware-level errors (opaque). -/
inductive MwErr where
| missingBeaconBlock
| missingBlobSidecars
| err (code : Nat)
deriving DecidableEq

/-- `cometabci.FinalizeBlockRequest`: the height, the state-sync target
height, and the opaque transaction payloads. -/
structure FinalizeBlockRequest where
  height : Nat
  syncingToHeight : Nat
  txs : List (List Nat)

/-- The collaborators of `FinalizeBlockMiddleware`: the chain spec's
`ActiveForkVersionForSlot`, the fork-versioned SSZ decoders of the block and
sidecar types, the blockchain service's `ProcessBlockAndBlobs`, and
`convertValidatorUpdate` into the host-consensus format.  Blocks, sidecars
and updates are opaque numbers. -/
structure MwEnv where
  activeForkVersionForSlot : Nat → Nat
  blockNewFromSSZ : List Nat → Nat → Except MwErr Nat
  sidecarsFromSSZ : List Nat → Except MwErr Nat
  processBlockAndBlobs : Nat → Nat → Bool → Except MwErr (List Nat)
  convertValidatorUpdate : Nat → Except MwErr Nat

/-- Modelled from the spec: `BeaconBlockTxIndex` — position 0 of the opaque
transactions carries the SSZ-encoded `BeaconBlock`. -/
def BeaconBlockTxIndex : Nat := 0

/-- Modelled from the spec: `BlobSidecarsTxIndex` — position 1 carries the
SSZ-encoded `BlobSidecars`. -/
def BlobSidecarsTxIndex : Nat := 1

/-- Modelled from the spec: `encoding.ExtractBlobsAndBlockFromRequest`
(declared outside the provided sources) reads the transaction at the block
index and decodes it with the fork-versioned SSZ decoder, then reads the
transaction at the blob index and decodes the sidecars, failing if either
position is absent or a decoder fails. -/
def ExtractBlobsAndBlockFromRequest (env : MwEnv)
    (req : FinalizeBlockRequest) (blkIdx blobIdx forkVersion : Nat) :
    Except MwErr (Nat × Nat) :=
match req.txs.get? blkIdx with
| none => Except.error MwErr.missingBeaconBlock
| some blkBz =>
  match env.blockNewFromSSZ blkBz forkVersion with
  | Except.error e => Except.error e
  | Except.ok blk =>
    match req.txs.get? blobIdx with
    | none => Except.error MwErr.missingBlobSidecars
    | some blobBz =>
      match env.sidecarsFromSSZ blobBz with
      | Except.error e => Except.error e
      | Except.ok blobs => Except.ok (blk, blobs)

/-- The middleware state: the cached `valUpdates` slice. -/
structure FinalizeBlockMiddleware where
  valUpdates : List Nat

/-- `FinalizeBlockMiddleware.PreBlock(ctx, req)`: extract the block and
blobs using the fork version active for slot `req.Height`, run
`ProcessBlockAndBlobs` with the syncing flag `req.SyncingToHeight ==
req.Height`, cache the produced validator updates, and return the error
value (on failure the Go multiple-assignment leaves the nil slice). -/
def PreBlock (env : MwEnv) (h : FinalizeBlockMiddleware)
    (req : FinalizeBlockRequest) :
    FinalizeBlockMiddleware × Except MwErr Unit :=
match ExtractBlobsAndBlockFromRequest env req BeaconBlockTxIndex
    BlobSidecarsTxIndex (env.activeForkVersionForSlot req.height) with
| Except.error e => (h, Except.error e)
| Except.ok (blk, blobs) =>
  match env.processBlockAndBlobs blk blobs
      (req.syncingToHeight == req.height) with
  | Except.error e => ({ valUpdates := [] }, Except.error e)
  | Except.ok updates => ({ valUpdates := updates }, Except.ok ())

/-- The elementwise conversion `iter.MapErr(updates,
convertValidatorUpdate)`: convert in order, failing on the first error. -/
def mapErrConvert (env : MwEnv) : List Nat → Except MwErr (List Nat)
| [] => Except.ok []
| u :: rest =>
  match env.convertValidatorUpdate u with
  | Except.error e => Except.error e
  | Except.ok v =>
    match mapErrConvert env rest with
    | Except.error e => Except.error e
    | Except.ok vs => Except.ok (v :: vs)

/-- `FinalizeBlockMiddleware.EndBlock(ctx)`: convert the cached validator
updates into the host-consensus format. -/
def EndBlock (env : MwEnv) (h : FinalizeBlockMiddleware) :
    Except MwErr (List Nat) :=
mapErrConvert env h.valUpdates

/-- A sample middleware environment with total decoders: a payload decodes
to its length, `ProcessBlockAndBlobs` records its three arguments, and
conversion increments. -/
def sampleMwEnv : MwEnv :=
{ activeForkVersionForSlot := fun _ => 0,
  blockNewFromSSZ := fun bz _ => Except.ok bz.length,
  sidecarsFromSSZ := fun bz => Except.ok bz.length,
  processBlockAndBlobs := fun blk blobs syncing =>
    Except.ok [blk, blobs, if syncing then 1 else 0],
  convertValidatorUpdate := fun u => Except.ok (u + 1) }

/-- A sample finalize-block request at height 7 (equal to the state-sync
target) with two opaque transactions. -/
def sampleReq : FinalizeBlockRequest :=
{ height := 7, syncingToHeight := 7, txs := [[1, 2], [3]] }

end middleware

end BeaconKit

namespace BeaconKit.sha256

theorem hashPairs_length : ∀ l : List Root, (hashPairs l).length = l.length / 2
| [] => rfl
| [_] => by simp [hashPairs]
| a :: b :: rest => by
  simp only [hashPairs, List.length_cons, hashPairs_length rest]
  omega

theorem hashTreeRoot_of_even {roots : List Root}
    (h : roots.length % 2 = 0) :
    HashTreeRoot roots = Except.ok (hashPairs roots) := by
  simp [HashTreeRoot, h]

theorem merkleizeLoop_ok_of_ne_nil :
    ∀ (n : Nat) (roots : List Root) (i : Nat), roots ≠ [] →
      ∃ r, merkleizeLoop n roots i = Except.ok r := by
  intro n
  induction n with
  | zero =>
    intro roots i hne
    match roots with
    | r :: rest => exact ⟨r, rfl⟩
  | succ n ih =>
    intro roots i hne
    have hlen : 0 < roots.length := List.length_pos.mpr hne
    by_cases hodd : roots.length % 2 ≠ 0
    · have heven : (roots ++ [zeroHash i]).length % 2 = 0 := by
        simp only [List.length_append, List.length_singleton]
        omega
      have hlen' : 0 < (hashPairs (roots ++ [zeroHash i])).length := by
        rw [hashPairs_length]
        simp only [List.length_append, List.length_singleton]
        omega
      obtain ⟨r, hr⟩ := ih (hashPairs (roots ++ [zeroHash i])) (i + 1)
        (List.length_pos.mp hlen')
      refine ⟨r, ?_⟩
      simp only [merkleizeLoop, if_pos hodd, hashTreeRoot_of_even heven]
      exact hr
    · push_neg at hodd
      have h2 : 2 ≤ roots.length := by omega
      have hlen' : 0 < (hashPairs roots).length := by
        rw [hashPairs_length]; omega
      obtain ⟨r, hr⟩ := ih (hashPairs roots) (i + 1)
        (List.length_pos.mp hlen')
      refine ⟨r, ?_⟩
      simp only [merkleizeLoop, hodd]
      rw [if_neg (by omega), if_neg (by omega), hashTreeRoot_of_even hodd]
      exact hr

theorem coverDepth_pos {limit : Nat} (h : 2 ≤ limit) :
    0 < CoverDepth limit := by
  obtain ⟨l, rfl⟩ : ∃ l, limit = l + 2 := ⟨limit - 2, by omega⟩
  show 0 < bitLenAux (l + 1) (l + 1)
  simp [bitLenAux]

theorem hashElements_ok_length {α : Type} (htr : α → Except MerkleErr Root) :
    ∀ (l : List α) (rs : List Root),
      HashElements htr l = Except.ok rs → rs.length = l.length := by
  intro l
  induction l with
  | nil => intro rs h; cases h; rfl
  | cons e rest ih =>
    intro rs h
    simp only [HashElements] at h
    cases he : htr e with
    | error err => rw [he] at h; cases h
    | ok r =>
      rw [he] at h
      cases hrest : HashElements htr rest with
      | error err => rw [hrest] at h; cases h
      | ok rs' =>
        rw [hrest] at h
        cases h
        simp [ih rs' hrest]

end BeaconKit.sha256

section MerkleSanity

open BeaconKit.sha256

example : CoverDepth 0 = 0 := by decide
example : CoverDepth 1 = 0 := by decide
example : CoverDepth 2 = 1 := by decide
example : CoverDepth 3 = 2 := by decide
example : CoverDepth 4 = 2 := by decide
example : CoverDepth 5 = 3 := by decide
example : CoverDepth 8 = 3 := by decide
example : CoverDepth 9 = 4 := by decide

example : SafeMerkleizeVector [] 4 = Except.ok (zeroHash 0) := by decide

example : SafeMerkleizeVector [] 1 = Except.error MerkleErr.indexOutOfRange := by
  decide

example :
    SafeMerkleizeVector [Root.bytes 1, Root.bytes 2] 2 =
      Except.ok (gHash (Root.bytes 1) (Root.bytes 2)) := by decide

example :
    SafeMerkleizeVector [Root.bytes 1] 4 =
      Except.ok (gHash (gHash (Root.bytes 1) (zeroHash 0)) (zeroHash 1)) := by
  decide

end MerkleSanity

namespace BeaconKit.sha256

/-- C1: the claim states that `SafeMerkleizeVector([], L)` returns
`ZeroHashes[CoverDepth(L)]` and that `SafeMerkelizeVectorAndMixinLength([],
L)` returns `mix_in(ZeroHashes[CoverDepth(L)], 0)`, as the function's own
step-2 comment also says.  The code instead short-circuits at level `i = 0`
and returns `ZeroHashes[0]` (the all-zero root): at the failing input
`roots = [], limit = 4` it yields `ZeroHashes[0] ≠ ZeroHashes[CoverDepth 4]`,
and at `limit = 1` the final `roots[0]` access panics out of range. -/
theorem safeMerkleizeVector_empty_returns_level_zero_hash :
    SafeMerkleizeVector [] 4 = Except.ok (zeroHash 0) ∧
    zeroHash 0 ≠ zeroHash (CoverDepth 4) ∧
    SafeMerkelizeVectorAndMixinLength [] 4 =
      Except.ok (Mixin (zeroHash 0) 0) ∧
    Mixin (zeroHash 0) 0 ≠ Mixin (zeroHash (CoverDepth 4)) 0 ∧
    SafeMerkleizeVector [] 1 = Except.error MerkleErr.indexOutOfRange := by
  decide

/-- C2: `UnsafeMerkleizeVectorAndMixinLength(roots, limit)` swaps `limit`
and `len(roots)` relative to the safe variant: it equals
`Mixin(SafeMerkleizeVector(roots, len(roots)), limit)`, while
`SafeMerkelizeVectorAndMixinLength(roots, limit)` equals
`Mixin(SafeMerkleizeVector(roots, limit), len(roots))`, and the two
functions differ at, e.g., `roots = [bytes 1], limit = 4`. -/
theorem unsafeMixin_swaps_arguments :
    (∀ (roots : List Root) (limit : Nat),
      UnsafeMerkleizeVectorAndMixinLength roots limit =
        Except.map (fun r => Mixin r limit)
          (SafeMerkleizeVector roots roots.length)) ∧
    (∀ (roots : List Root) (limit : Nat),
      SafeMerkelizeVectorAndMixinLength roots limit =
        Except.map (fun r => Mixin r roots.length)
          (SafeMerkleizeVector roots limit)) ∧
    (∃ (roots : List Root) (limit : Nat),
      UnsafeMerkleizeVectorAndMixinLength roots limit ≠
        SafeMerkelizeVectorAndMixinLength roots limit) := by
  refine ⟨?_, ?_, ⟨[Root.bytes 1], 4, by decide⟩⟩
  · intro roots limit
    simp only [UnsafeMerkleizeVectorAndMixinLength, UnsafeMerkleizeVector]
    cases SafeMerkleizeVector roots roots.length <;> rfl
  · intro roots limit
    simp only [SafeMerkelizeVectorAndMixinLength]
    cases SafeMerkleizeVector roots limit <;> rfl

/-- C3: whenever the number of roots (resp. elements) exceeds the limit,
`SafeMerkleizeVector` returns the limit-exceeded error, and
`SafeMerkelizeVectorAndMixinLength`, `BuildMerkleRoot` and
`BuildMerkleRootAndMixinLength` likewise return an error rather than a
root. -/
theorem merkleize_exceeding_limit_errors {α : Type}
    (htr : α → Except MerkleErr Root) (elements : List α)
    (roots : List Root) (limit : Nat)
    (hr : roots.length > limit) (he : elements.length > limit) :
    SafeMerkleizeVector roots limit = Except.error MerkleErr.limitExceeded ∧
    SafeMerkelizeVectorAndMixinLength roots limit =
      Except.error MerkleErr.limitExceeded ∧
    (∃ e, BuildMerkleRoot htr elements limit = Except.error e) ∧
    (∃ e, BuildMerkleRootAndMixinLength htr elements limit =
      Except.error e) := by
  have hsafe : SafeMerkleizeVector roots limit =
      Except.error MerkleErr.limitExceeded := by
    simp [SafeMerkleizeVector, hr]
  refine ⟨hsafe, ?_, ?_, ?_⟩
  · simp [SafeMerkelizeVectorAndMixinLength, hsafe]
  · cases hel : HashElements htr elements with
    | error e => exact ⟨e, by simp [BuildMerkleRoot, hel]⟩
    | ok rs =>
      refine ⟨MerkleErr.limitExceeded, ?_⟩
      have hlen : rs.length > limit := by
        rw [hashElements_ok_length htr elements rs hel]; exact he
      simp [BuildMerkleRoot, hel, SafeMerkleizeVector, hlen]
  · cases hel : HashElements htr elements with
    | error e => exact ⟨e, by simp [BuildMerkleRootAndMixinLength, hel]⟩
    | ok rs =>
      refine ⟨MerkleErr.limitExceeded, ?_⟩
      have hlen : rs.length > limit := by
        rw [hashElements_ok_length htr elements rs hel]; exact he
      simp [BuildMerkleRootAndMixinLength,
        SafeMerkelizeVectorAndMixinLength, hel, SafeMerkleizeVector, hlen]

/-- Witness for C3 at `htr = ok`, two elements, two roots, `limit = 1`. -/
theorem merkleize_exceeding_limit_errors_witness :
    SafeMerkleizeVector [Root.bytes 0, Root.bytes 1] 1 =
      Except.error MerkleErr.limitExceeded ∧
    SafeMerkelizeVectorAndMixinLength [Root.bytes 0, Root.bytes 1] 1 =
      Except.error MerkleErr.limitExceeded ∧
    (∃ e, BuildMerkleRoot (fun r => Except.ok r)
      [Root.bytes 0, Root.bytes 1] 1 = Except.error e) ∧
    (∃ e, BuildMerkleRootAndMixinLength (fun r => Except.ok r)
      [Root.bytes 0, Root.bytes 1] 1 = Except.error e) :=
  merkleize_exceeding_limit_errors (fun r => Except.ok r)
    [Root.bytes 0, Root.bytes 1] [Root.bytes 0, Root.bytes 1] 1
    (by decide) (by decide)

/-- C10 counterexample: the claim includes the empty list with `limit ≤ 1`
in the total domain, but there `CoverDepth = 0`, the loop body never runs,
and the final `roots[0]` access is out of bounds: at `roots = [], limit = 1`
(where `len(roots) ≤ limit`) the function hits the out-of-range panic
instead of returning a root. -/
theorem safeMerkleizeVector_empty_limit_one_panics :
    ([] : List Root).length ≤ 1 ∧
    SafeMerkleizeVector [] 1 = Except.error MerkleErr.indexOutOfRange := by
  decide

/-- C10 (amended): `SafeMerkleizeVector` is total on the domain
`len(roots) ≤ limit` except for the empty list with `limit ≤ 1`: whenever
`len(roots) ≤ limit` and (`roots` nonempty or `limit ≥ 2`), the function
returns a root, with every internal access in bounds. -/
theorem safeMerkleizeVector_total (roots : List Root) (limit : Nat)
    (h1 : roots.length ≤ limit) (h2 : roots = [] → 2 ≤ limit) :
    ∃ r, SafeMerkleizeVector roots limit = Except.ok r := by
  have hnot : ¬ roots.length > limit := by omega
  cases hroots : roots with
  | nil =>
    obtain ⟨k, hk⟩ : ∃ k, CoverDepth limit = k + 1 := by
      have := coverDepth_pos (h2 hroots)
      exact ⟨CoverDepth limit - 1, by omega⟩
    refine ⟨zeroHash 0, ?_⟩
    rw [hroots] at hnot
    simp [SafeMerkleizeVector, hnot, hk, merkleizeLoop]
  | cons r rest =>
    obtain ⟨root, hroot⟩ :=
      merkleizeLoop_ok_of_ne_nil (CoverDepth limit) (r :: rest) 0
        (List.cons_ne_nil r rest)
    refine ⟨root, ?_⟩
    rw [hroots] at hnot
    unfold SafeMerkleizeVector
    rw [if_neg hnot]
    exact hroot

/-- Witness for C10 (amended) at a singleton list with `limit = 1`. -/
theorem safeMerkleizeVector_total_witness :
    ∃ r, SafeMerkleizeVector [Root.bytes 0] 1 = Except.ok r :=
  safeMerkleizeVector_total [Root.bytes 0] 1 (by decide)
    (fun h => absurd h (by decide))

end BeaconKit.sha256

namespace BeaconKit.server

theorem insert_isSome (m : PubMap) (a : Nat) (p : Publisher) (x : Nat) :
    (PubMap.insert m a p x).isSome = true ↔ x = a ∨ (m x).isSome = true := by
  by_cases h : x = a <;> simp [PubMap.insert, h]

theorem batchClash_cons (m : PubMap) (p : Publisher) (ps : List Publisher) :
    batchClash m (p :: ps) ↔
      (m p.eventID).isSome = true ∨
        batchClash (m.insert p.eventID p) ps := by
  constructor
  · rintro ⟨pre, q, post, heq, hc⟩
    cases pre with
    | nil =>
      injection heq with h1 h2
      subst h1
      rcases hc with hm | hmem
      · exact Or.inl hm
      · simp at hmem
    | cons a pre' =>
      injection heq with h1 h2
      subst h1
      refine Or.inr ⟨pre', q, post, h2, ?_⟩
      rcases hc with hm | hmem
      · exact Or.inl ((insert_isSome m p.eventID p q.eventID).mpr
          (Or.inr hm))
      · rw [List.map_cons] at hmem
        rcases List.mem_cons.mp hmem with hqp | hmem'
        · exact Or.inl ((insert_isSome m p.eventID p q.eventID).mpr
            (Or.inl hqp))
        · exact Or.inr hmem'
  · rintro (hm | ⟨pre, q, post, heq, hc⟩)
    · exact ⟨[], p, ps, rfl, Or.inl hm⟩
    · refine ⟨p :: pre, q, post, by rw [heq, List.cons_append], ?_⟩
      rcases hc with hins | hmem
      · rcases (insert_isSome m p.eventID p q.eventID).mp hins with hqp | hm
        · exact Or.inr (by simp [hqp])
        · exact Or.inl hm
      · exact Or.inr (by simp [hmem])

theorem registerLoop_preserves (xs : List Publisher) :
    ∀ (m : PubMap) (id : Nat) (p : Publisher), m id = some p →
      (registerLoop m xs).1 id = some p := by
  induction xs with
  | nil => intro m id p h; exact h
  | cons a xs ih =>
    intro m id p h
    by_cases ha : (m a.eventID).isSome = true
    · simp only [registerLoop, if_pos ha]
      exact h
    · simp only [registerLoop, if_neg ha]
      apply ih
      unfold PubMap.insert
      by_cases hid : id = a.eventID
      · subst hid; rw [h] at ha; simp at ha
      · simp [hid, h]

theorem registerLoop_success (xs : List Publisher) :
    ∀ m : PubMap, ¬ batchClash m xs →
      (registerLoop m xs).2 = Except.ok () ∧
        ∀ q ∈ xs, (registerLoop m xs).1 q.eventID = some q := by
  induction xs with
  | nil => intro m _; exact ⟨rfl, by simp⟩
  | cons a xs ih =>
    intro m h
    rw [batchClash_cons] at h
    push_neg at h
    obtain ⟨h1, h2⟩ := h
    simp only [registerLoop, if_neg h1]
    obtain ⟨hok, hbind⟩ := ih (m.insert a.eventID a) h2
    refine ⟨hok, ?_⟩
    intro q hq
    rcases List.mem_cons.mp hq with rfl | hq'
    · exact registerLoop_preserves xs _ q.eventID q (by simp [PubMap.insert])
    · exact hbind q hq'

theorem registerLoop_append (xs ys : List Publisher) :
    ∀ m : PubMap, (registerLoop m xs).2 = Except.ok () →
      registerLoop m (xs ++ ys) = registerLoop (registerLoop m xs).1 ys := by
  induction xs with
  | nil => intro m _; rfl
  | cons a xs ih =>
    intro m hok
    by_cases ha : (m a.eventID).isSome = true
    · simp only [registerLoop, if_pos ha] at hok
      cases hok
    · simp only [List.cons_append, registerLoop, if_neg ha] at hok ⊢
      exact ih _ hok

theorem registerLoop_clash_fails (xs : List Publisher) :
    ∀ m : PubMap, batchClash m xs →
      ∃ id, (registerLoop m xs).2 =
        Except.error (EvErr.publisherAlreadyExists id) := by
  induction xs with
  | nil =>
    intro m h
    exact absurd h (by
      rintro ⟨pre, q, post, heq, _⟩
      cases pre <;> simp at heq)
  | cons a xs ih =>
    intro m h
    rw [batchClash_cons] at h
    by_cases ha : (m a.eventID).isSome = true
    · exact ⟨a.eventID, by simp [registerLoop, ha]⟩
    · rcases h with h | h
      · exact absurd h ha
      · obtain ⟨id, hid⟩ := ih _ h
        exact ⟨id, by simp only [registerLoop, if_neg ha]; exact hid⟩

theorem registerPublishers_eq (es : EventServer) (ps : List Publisher) :
    es.RegisterPublishers ps =
      ({ publishers := (registerLoop es.publishers ps).1 },
        (registerLoop es.publishers ps).2) :=
  rfl

/-- C7: `RegisterPublishers` fails with a duplicate-event-id error whenever
some publisher of the batch has an event id already bound in the registry or
bound earlier in the same batch, and otherwise succeeds with every publisher
of the batch bound under its event id. -/
theorem registerPublishers_duplicate_or_binds_all
    (es : EventServer) (ps : List Publisher) :
    (batchClash es.publishers ps →
      ∃ id, (es.RegisterPublishers ps).2 =
        Except.error (EvErr.publisherAlreadyExists id)) ∧
    (¬ batchClash es.publishers ps →
      (es.RegisterPublishers ps).2 = Except.ok () ∧
        ∀ q ∈ ps, ((es.RegisterPublishers ps).1).publishers q.eventID =
          some q) := by
  rw [registerPublishers_eq]
  constructor
  · intro h
    simpa using registerLoop_clash_fails ps es.publishers h
  · intro h
    obtain ⟨hok, hbind⟩ := registerLoop_success ps es.publishers h
    exact ⟨hok, hbind⟩

/-- C8: `Publish` returns a publisher-not-found error exactly when no
publisher is registered under the event's id, `Subscribe` exactly when none
is registered under the asked id, and otherwise each delegates to the
registered publisher and returns its result.  The iff directions use the
spec's publisher contract (a publisher's own methods never produce
`PublisherNotFound`). -/
theorem publish_subscribe_not_found_iff
    (es : EventServer)
    (hWF : ∀ id p, es.publishers id = some p → PublisherContract p)
    (event : BaseEvent) (eventID ch : Nat) :
    ((∃ i, es.Publish event = Except.error (EvErr.publisherNotFound i)) ↔
      es.publishers event.id = none) ∧
    ((∃ i, es.Subscribe eventID ch =
        Except.error (EvErr.publisherNotFound i)) ↔
      es.publishers eventID = none) ∧
    (∀ p, es.publishers event.id = some p →
      es.Publish event = p.publishFn event) ∧
    (∀ p, es.publishers eventID = some p →
      es.Subscribe eventID ch = p.subscribeFn ch) := by
  refine ⟨⟨?_, ?_⟩, ⟨?_, ?_⟩, ?_, ?_⟩
  · rintro ⟨i, hi⟩
    cases hp : es.publishers event.id with
    | none => rfl
    | some p =>
      unfold EventServer.Publish at hi
      rw [hp] at hi
      exact absurd hi ((hWF _ p hp).1 event i)
  · intro hnone
    exact ⟨event.id, by unfold EventServer.Publish; rw [hnone]⟩
  · rintro ⟨i, hi⟩
    cases hp : es.publishers eventID with
    | none => rfl
    | some p =>
      unfold EventServer.Subscribe at hi
      rw [hp] at hi
      exact absurd hi ((hWF _ p hp).2 ch i)
  · intro hnone
    exact ⟨eventID, by unfold EventServer.Subscribe; rw [hnone]⟩
  · intro p hp
    unfold EventServer.Publish
    rw [hp]
  · intro p hp
    unfold EventServer.Subscribe
    rw [hp]

/-- Witness for C8 on `sampleServer` (only id 1 bound), an event with id 2
and a subscription to id 2. -/
theorem publish_subscribe_not_found_iff_witness :
    ((∃ i, sampleServer.Publish { id := 2, payload := 0 } =
        Except.error (EvErr.publisherNotFound i)) ↔
      sampleServer.publishers 2 = none) ∧
    ((∃ i, sampleServer.Subscribe 2 5 =
        Except.error (EvErr.publisherNotFound i)) ↔
      sampleServer.publishers 2 = none) ∧
    (∀ p, sampleServer.publishers 2 = some p →
      sampleServer.Publish { id := 2, payload := 0 } =
        p.publishFn { id := 2, payload := 0 }) ∧
    (∀ p, sampleServer.publishers 2 = some p →
      sampleServer.Subscribe 2 5 = p.subscribeFn 5) :=
  publish_subscribe_not_found_iff sampleServer
    (by
      intro id p hp
      by_cases h : id = 1
      · subst h
        have hp' : okPub 1 = p := by
          simpa [sampleServer, samplePublishers] using hp
        subst hp'
        exact ⟨fun e i hcon => Except.noConfusion hcon,
          fun c i hcon => Except.noConfusion hcon⟩
      · simp [sampleServer, samplePublishers, h] at hp)
    { id := 2, payload := 0 } 2 5

/-- C9: batch registration is not rolled back on failure: if the prefix
before position `k` is clash-free and the publisher at position `k` hits an
already-bound event id, `RegisterPublishers` returns the duplicate error and
the publishers of the prefix remain registered in the returned server. -/
theorem registerPublishers_partial_not_rolled_back
    (es : EventServer) (pre : List Publisher) (pk : Publisher)
    (post : List Publisher)
    (h1 : ¬ batchClash es.publishers pre)
    (h2 : (((es.RegisterPublishers pre).1).publishers pk.eventID).isSome
      = true) :
    (es.RegisterPublishers (pre ++ pk :: post)).2 =
      Except.error (EvErr.publisherAlreadyExists pk.eventID) ∧
    ∀ q ∈ pre,
      ((es.RegisterPublishers (pre ++ pk :: post)).1).publishers
        q.eventID = some q := by
  obtain ⟨hok, hbind⟩ := registerLoop_success pre es.publishers h1
  have happ := registerLoop_append pre (pk :: post) es.publishers hok
  have h2' : ((registerLoop es.publishers pre).1 pk.eventID).isSome
      = true := by
    rw [registerPublishers_eq] at h2
    exact h2
  have hstep : registerLoop (registerLoop es.publishers pre).1 (pk :: post)
      = ((registerLoop es.publishers pre).1,
          Except.error (EvErr.publisherAlreadyExists pk.eventID)) := by
    simp only [registerLoop, if_pos h2']
  rw [registerPublishers_eq]
  constructor
  · show (registerLoop es.publishers (pre ++ pk :: post)).2 = _
    rw [happ, hstep]
  · intro q hq
    show (registerLoop es.publishers (pre ++ pk :: post)).1 q.eventID
      = some q
    rw [happ, hstep]
    exact hbind q hq

/-- Witness for C9: registering `[okPub 1, okPub 2, okPub 2]` on an empty
server fails at position 2 yet leaves `okPub 1` and `okPub 2` bound. -/
theorem registerPublishers_partial_witness :
    (NewEventServer.RegisterPublishers
        ([okPub 1, okPub 2] ++ okPub 2 :: [])).2 =
      Except.error (EvErr.publisherAlreadyExists (okPub 2).eventID) ∧
    ∀ q ∈ [okPub 1, okPub 2],
      ((NewEventServer.RegisterPublishers
          ([okPub 1, okPub 2] ++ okPub 2 :: [])).1).publishers
        q.eventID = some q :=
  registerPublishers_partial_not_rolled_back NewEventServer
    [okPub 1, okPub 2] (okPub 2) []
    (by
      rintro ⟨pre, q, post, heq, hc⟩
      rcases hc with hm | hmem
      · simp [NewEventServer] at hm
      · cases pre with
        | nil => simp at hmem
        | cons a pre' =>
          injection heq with ha htail
          cases pre' with
          | nil =>
            injection htail with hq hpost
            subst ha
            subst hq
            simp [okPub] at hmem
          | cons b pre'' =>
            injection htail with hb htail2
            cases pre'' <;> simp at htail2)
    (by rfl)

end BeaconKit.server

namespace BeaconKit.blob

/-- C5: on a non-empty batch, `ProcessSidecars` issues exactly one `Persist`
call, keyed by the slot of sidecar 0's beacon block header, passing the
entire batch, and returns that call's result. -/
theorem processSidecars_single_persist (env : ProcessorEnv)
    (s : BlobSidecar) (rest : List BlobSidecar) :
    (ProcessSidecars env (s :: rest)).1 =
      [{ slot := s.headerSlot, sidecars := s :: rest }] ∧
    (ProcessSidecars env (s :: rest)).2 =
      env.persistFn s.headerSlot (s :: rest) :=
  ⟨rfl, rfl⟩

/-- C6: on an empty batch, `VerifySidecars` and `ProcessSidecars` both
return nil, performing no verifier call and no `Persist` call (the empty
call logs), leaving the availability store unchanged. -/
theorem emptyBatch_noop (env : ProcessorEnv) (hdr : BlockHeader) :
    VerifySidecars env { sidecars := [], header := hdr } =
      ([], Except.ok ()) ∧
    ProcessSidecars env [] = ([], Except.ok ()) :=
  ⟨rfl, rfl⟩

end BeaconKit.blob

namespace BeaconKit.middleware

/-- C4: when the request's transactions decode (block from position 0 with
the fork version active for slot = height, sidecars from position 1),
`PreBlock` invokes `ProcessBlockAndBlobs` with the syncing flag set exactly
when `SyncingToHeight = Height`, returns its error if it fails, and on
success `EndBlock` returns exactly its validator updates converted
element-wise to the host-consensus format. -/
theorem preBlock_endBlock_spec (env : MwEnv) (mw : FinalizeBlockMiddleware)
    (req : FinalizeBlockRequest) (blk blobs : Nat)
    (hdec : ExtractBlobsAndBlockFromRequest env req BeaconBlockTxIndex
      BlobSidecarsTxIndex (env.activeForkVersionForSlot req.height) =
        Except.ok (blk, blobs)) :
    (∃ bz0 bz1, req.txs.get? 0 = some bz0 ∧
      env.blockNewFromSSZ bz0 (env.activeForkVersionForSlot req.height) =
        Except.ok blk ∧
      req.txs.get? 1 = some bz1 ∧
      env.sidecarsFromSSZ bz1 = Except.ok blobs) ∧
    ((req.syncingToHeight == req.height) = true ↔
      req.syncingToHeight = req.height) ∧
    (∀ e, env.processBlockAndBlobs blk blobs
        (req.syncingToHeight == req.height) = Except.error e →
      (PreBlock env mw req).2 = Except.error e) ∧
    (∀ us, env.processBlockAndBlobs blk blobs
        (req.syncingToHeight == req.height) = Except.ok us →
      (PreBlock env mw req).2 = Except.ok () ∧
      EndBlock env (PreBlock env mw req).1 = mapErrConvert env us) := by
  refine ⟨?_, beq_iff_eq, ?_, ?_⟩
  · unfold ExtractBlobsAndBlockFromRequest BeaconBlockTxIndex
      BlobSidecarsTxIndex at hdec
    split at hdec
    · exact Except.noConfusion hdec
    · rename_i bz0 h0
      split at hdec
      · exact Except.noConfusion hdec
      · rename_i b hb
        split at hdec
        · exact Except.noConfusion hdec
        · rename_i bz1 h1
          split at hdec
          · exact Except.noConfusion hdec
          · rename_i bl hs
            injection hdec with hpair
            injection hpair with hblk hblobs
            subst hblk
            subst hblobs
            exact ⟨bz0, bz1, h0, hb, h1, hs⟩
  · intro e he
    simp only [PreBlock, hdec, he]
  · intro us hus
    simp [PreBlock, hdec, hus, EndBlock]

/-- Witness for C4 on `sampleMwEnv` and `sampleReq` (height 7 equals the
state-sync target, transactions `[[1,2],[3]]` decoding to block 2 and
sidecars 1). -/
theorem preBlock_endBlock_spec_witness :
    (∃ bz0 bz1, sampleReq.txs.get? 0 = some bz0 ∧
      sampleMwEnv.blockNewFromSSZ bz0
        (sampleMwEnv.activeForkVersionForSlot sampleReq.height) =
          Except.ok 2 ∧
      sampleReq.txs.get? 1 = some bz1 ∧
      sampleMwEnv.sidecarsFromSSZ bz1 = Except.ok 1) ∧
    ((sampleReq.syncingToHeight == sampleReq.height) = true ↔
      sampleReq.syncingToHeight = sampleReq.height) ∧
    (∀ e, sampleMwEnv.processBlockAndBlobs 2 1
        (sampleReq.syncingToHeight == sampleReq.height) = Except.error e →
      (PreBlock sampleMwEnv { valUpdates := [] } sampleReq).2 =
        Except.error e) ∧
    (∀ us, sampleMwEnv.processBlockAndBlobs 2 1
        (sampleReq.syncingToHeight == sampleReq.height) = Except.ok us →
      (PreBlock sampleMwEnv { valUpdates := [] } sampleReq).2 =
        Except.ok () ∧
      EndBlock sampleMwEnv
          (PreBlock sampleMwEnv { valUpdates := [] } sampleReq).1 =
        mapErrConvert sampleMwEnv us) :=
  preBlock_endBlock_spec sampleMwEnv { valUpdates := [] } sampleReq 2 1 rfl

end BeaconKit.middleware
